import Mathlib

/-!
Shallow embedding of the denbust news pipeline core: the seen ledger
(src/denbust/store/seen.py), the classifier response parsing
(src/denbust/classifier/relevance.py), the similarity grouper
(src/denbust/dedup/similarity.py) and the pipeline orchestrator
(src/denbust/pipeline.py).  Python floats are modelled as rationals,
datetimes by their POSIX timestamp as a rational, and strings by `String`.
-/

/-! ## Data model (src/denbust/data_models.py) -/

/-- Category enumeration from data_models.py. -/
inductive Category where
  | brothel | prostitution | pimping | trafficking | enforcement | not_relevant
deriving DecidableEq, Repr, Inhabited

/-- SubCategory enumeration from data_models.py (a single flat enumeration;
the comments in the source group the members by their intended category). -/
inductive SubCategory where
  | closure | opening | arrest | fine | sentence | rescue | operation | other
deriving DecidableEq, Repr, Inhabited

/-- RawArticle from data_models.py.  The url is kept as its string form
(`str(article.url)` is what the pipeline and the store compare); `date` is the
POSIX timestamp `article.date.timestamp()` as a rational. -/
structure RawArticle where
  url : String
  title : String
  snippet : String
  date : ℚ
  source_name : String
deriving DecidableEq, Repr, Inhabited

/-- ClassificationResult from data_models.py. -/
structure ClassificationResult where
  relevant : Bool
  category : Category
  sub_category : Option SubCategory
  confidence : String
deriving DecidableEq, Repr, Inhabited

/-- ClassifiedArticle from data_models.py. -/
structure ClassifiedArticle where
  article : RawArticle
  classification : ClassificationResult
deriving DecidableEq, Repr, Inhabited

/-- SourceReference from data_models.py. -/
structure SourceReference where
  source_name : String
  url : String
deriving DecidableEq, Repr, Inhabited

/-- UnifiedItem from data_models.py. -/
structure UnifiedItem where
  headline : String
  summary : String
  sources : List SourceReference
  date : ℚ
  category : Category
  sub_category : Option SubCategory
deriving DecidableEq, Repr, Inhabited

/-! ## Seen ledger (src/denbust/store/seen.py)

The in-memory state `self._seen : dict[str, str]` is modelled as an
insertion-ordered association list from url to first-seen timestamp string,
which is faithful to CPython dicts (insertion ordered, keys unique). -/

/-- In-memory state of SeenStore: the url -> first_seen_timestamp mapping. -/
structure SeenStore where
  seen : List (String × String)
deriving DecidableEq, Repr, Inhabited

/-- SeenStore.is_seen: membership test of the url among the dict keys. -/
def SeenStore.is_seen (st : SeenStore) (url : String) : Bool :=
  st.seen.any (fun p => p.1 == url)

/-- SeenStore.mark_seen: for each url in order, if not already present record
it with the current timestamp `ts` (the check is against the growing dict, so
a url repeated in the input is recorded once). -/
def SeenStore.mark_seen (st : SeenStore) (ts : String) (urls : List String) : SeenStore :=
  ⟨urls.foldl (fun acc u => if acc.any (fun p => p.1 == u) then acc else acc ++ [(u, ts)]) st.seen⟩

/-- SeenStore.filter_unseen: the urls of the input not currently seen, in
input order. -/
def SeenStore.filter_unseen (st : SeenStore) (urls : List String) : List String :=
  urls.filter (fun u => !st.is_seen u)

/-- SeenStore.count: number of seen urls. -/
def SeenStore.count (st : SeenStore) : Nat :=
  st.seen.length

/-- SeenStore.clear. -/
def SeenStore.clear (_st : SeenStore) : SeenStore :=
  ⟨[]⟩

/-- Leap-year test of the proleptic Gregorian calendar used by
datetime.date. -/
def isLeapYear (y : Int) : Bool :=
  (y % 4 == 0 && y % 100 != 0) || y % 400 == 0

/-- Number of days of month `m` of year `y`. -/
def daysInMonth (y m : Int) : Int :=
  if m == 2 then (if isLeapYear y then 29 else 28)
  else if m == 4 || m == 6 || m == 9 || m == 11 then 30
  else 31

/-- Days from 1970-01-01 to the civil date y-m-d (standard civil-from-days
conversion, floor divisions throughout). -/
def daysFromCivil (y m d : Int) : Int :=
  let y2 := if m ≤ 2 then y - 1 else y
  let era := Int.fdiv y2 400
  let yoe := y2 - era * 400
  let mp := Int.fmod (m + 9) 12
  let doy := Int.fdiv (153 * mp + 2) 5 + d - 1
  let doe := yoe * 365 + Int.fdiv yoe 4 - Int.fdiv yoe 100 + doy
  era * 146097 + doe - 719468

/-- Numeric value of a list of decimal digit characters. -/
def digitsVal (cs : List Char) : Nat :=
  cs.foldl (fun n c => 10 * n + (c.toNat - 48)) 0

/-- Model of datetime.fromisoformat(ts).timestamp() on the timestamp shape the
store itself writes: an aware UTC timestamp of the form
YYYY-MM-DDTHH:MM:SS+00:00.  Strings of any other shape are outside the
modelled domain and map to none, which the caller treats as unparsable
(ValueError). -/
def isoParse (s : String) : Option ℚ :=
  match s.data with
  | [y1, y2, y3, y4, '-', m1, m2, '-', d1, d2, 'T',
     h1, h2, ':', i1, i2, ':', s1, s2, '+', '0', '0', ':', '0', '0'] =>
    if ([y1, y2, y3, y4, m1, m2, d1, d2, h1, h2, i1, i2, s1, s2].all Char.isDigit) then
      let y : Int := digitsVal [y1, y2, y3, y4]
      let mo : Int := digitsVal [m1, m2]
      let d : Int := digitsVal [d1, d2]
      let h : Int := digitsVal [h1, h2]
      let mi : Int := digitsVal [i1, i2]
      let se : Int := digitsVal [s1, s2]
      if 1 ≤ y && 1 ≤ mo && mo ≤ 12 && 1 ≤ d && d ≤ daysInMonth y mo
          && h ≤ 23 && mi ≤ 59 && se ≤ 59 then
        some ((daysFromCivil y mo d * 86400 + h * 3600 + mi * 60 + se : Int) : ℚ)
      else none
    else none
  | _ => none

/-- SeenStore._parse_timestamp: parse the ISO timestamp, ValueError becomes
0.0.  The stdlib parser is a parameter `parse`; `isoParse` instantiates it for
concrete inputs. -/
def SeenStore.tsVal (parse : String → Option ℚ) (ts : String) : ℚ :=
  (parse ts).getD 0

/-- SeenStore.prune_older_than: for positive `days`, keep exactly the entries
whose parsed timestamp is strictly greater than `now - days * 86400` and
return the number removed; for `days ≤ 0` do nothing. -/
def SeenStore.prune_older_than (parse : String → Option ℚ) (now : ℚ) (days : Int)
    (st : SeenStore) : SeenStore × Nat :=
  if days ≤ 0 then (st, 0)
  else
    let cutoff : ℚ := now - (days : ℚ) * 86400
    let kept := st.seen.filter (fun p => cutoff < SeenStore.tsVal parse p.2)
    (⟨kept⟩, st.seen.length - kept.length)

/-! ## Title similarity (difflib.SequenceMatcher with isjunk=None, as used in
src/denbust/dedup/similarity.py)

The matcher is modelled on lists of characters.  With isjunk=None the bjunk
set is empty, so the two junk extension loops of find_longest_match never run
and the two plain extension loops carry no junk condition; the autojunk
heuristic only removes popular characters from the b2j index used by the
dynamic programming pass. -/

/-- Autojunk popularity test of difflib: for b of length at least 200, a
character occurring more than length/100 + 1 times is purged from the b2j
index. -/
def isPopular (b : List Char) (c : Char) : Bool :=
  decide (200 ≤ b.length) && decide (b.length / 100 + 1 < b.count c)

/-- One row of the find_longest_match dynamic programming pass: `old` is the
previous row shifted by one (so entry j of `old` is entry j-1 of the previous
row), and entry j of the result is the length of the matching run ending at
(i, j), zero when b[j] does not match the current character of a or is purged
as popular. -/
def simRow (pop : Char → Bool) (c : Char) : List Char → List Nat → List Nat
  | [], _ => []
  | b :: bs, old => (if b == c && !pop b then old.headD 0 + 1 else 0) :: simRow pop c bs old.tail

/-- Scan of one dynamic programming row in increasing j, replacing the best
match (besti, bestj, bestsize) whenever a strictly larger run length is found,
exactly as the inner loop of find_longest_match does. -/
def bestScan (i : Nat) : List Nat → Nat → Nat × Nat × Nat → Nat × Nat × Nat
  | [], _, best => best
  | k :: ks, j, best =>
      bestScan i ks (j + 1) (if best.2.2 < k then (i + 1 - k, j + 1 - k, k) else best)

/-- Dynamic programming pass of find_longest_match over the rows of a. -/
def flmGo (pop : Char → Bool) (b : List Char) :
    List Char → Nat → List Nat → Nat × Nat × Nat → Nat × Nat × Nat
  | [], _, _, best => best
  | c :: as, i, prev, best =>
      flmGo pop b as (i + 1) (simRow pop c b (0 :: prev))
        (bestScan i (simRow pop c b (0 :: prev)) 0 best)

/-- Front extension loop of find_longest_match (with isjunk=None the junk
condition on it is vacuous): while both indices are positive and the
preceding characters are equal, widen the match to the left. -/
def extendFront (a b : List Char) : Nat → Nat → Nat → Nat × Nat × Nat
  | 0, bj, size => (0, bj, size)
  | bi + 1, 0, size => (bi + 1, 0, size)
  | bi + 1, bj + 1, size =>
      match a[bi]?, b[bj]? with
      | some x, some y =>
          if x == y then extendFront a b bi bj (size + 1) else (bi + 1, bj + 1, size)
      | _, _ => (bi + 1, bj + 1, size)

/-- Back extension loop of find_longest_match, with an explicit iteration
bound: while the characters right after the match exist and are equal, widen
the match to the right. -/
def extendBackF (a b : List Char) (bi bj : Nat) : Nat → Nat → Nat
  | size, 0 => size
  | size, fuel + 1 =>
    match a[bi + size]?, b[bj + size]? with
    | some x, some y => if x == y then extendBackF a b bi bj (size + 1) fuel else size
    | _, _ => size

/-- Back extension loop of find_longest_match.  Every iteration requires
bi + size < a.length, so the loop runs at most a.length - (bi + size) times
and the bound is exact: when it reaches zero the index test fails too. -/
def extendBack (a b : List Char) (bi bj size : Nat) : Nat :=
  extendBackF a b bi bj size (a.length - (bi + size))

/-- find_longest_match of difflib.SequenceMatcher with isjunk=None, in
coordinates local to the compared slices. -/
def findLongestMatch (pop : Char → Bool) (a b : List Char) : Nat × Nat × Nat :=
  let d := flmGo pop b a 0 (List.replicate b.length 0) (0, 0, 0)
  let f := extendFront a b d.1 d.2.1 d.2.2
  (f.1, f.2.1, extendBack a b f.1 f.2.1 f.2.2)


/-- Total indexing of a row with default 0, matching the absent-entry default
of the j2len dictionaries. -/
def nthD : List Nat → Nat → Nat
  | [], _ => 0
  | k :: _, 0 => k
  | _ :: ks, j + 1 => nthD ks j

theorem nthD_zero (old : List Nat) : nthD old 0 = old.headD 0 := by
  cases old <;> rfl

theorem nthD_succ (old : List Nat) (j : Nat) : nthD old (j + 1) = nthD old.tail j := by
  cases old <;> rfl

theorem nthD_replicate (n : Nat) : ∀ (j : Nat), nthD (List.replicate n 0) j = 0 := by
  induction n with
  | zero => intro j; simp [List.replicate, nthD]
  | succ n ih =>
    intro j
    cases j with
    | zero => simp [List.replicate, nthD]
    | succ j => simpa [List.replicate, nthD] using ih j

theorem simRow_length (pop : Char → Bool) (c : Char) :
    ∀ (b : List Char) (old : List Nat), (simRow pop c b old).length = b.length := by
  intro b
  induction b with
  | nil => intro old; simp [simRow]
  | cons x xs ih => intro old; simp [simRow, ih]

theorem simRow_nthD_le (pop : Char → Bool) (c : Char) :
    ∀ (b : List Char) (old : List Nat) (j : Nat),
      nthD (simRow pop c b old) j ≤ nthD old j + 1 := by
  intro b
  induction b with
  | nil => intro old j; simp [simRow, nthD]
  | cons x xs ih =>
    intro old j
    cases j with
    | zero =>
      simp only [simRow, nthD, nthD_zero]
      split <;> omega
    | succ j =>
      have h := ih old.tail j
      simp only [simRow, nthD]
      rw [nthD_succ]
      exact h

/-- Bound predicate carried through the dynamic programming pass: the match
fits inside the first i rows of a and inside b. -/
def MatchBnd (lb i : Nat) (t : Nat × Nat × Nat) : Prop :=
  t.1 + t.2.2 ≤ i ∧ t.2.1 + t.2.2 ≤ lb

theorem bestScan_bound (i lb : Nat) :
    ∀ (ks : List Nat) (j0 : Nat) (best : Nat × Nat × Nat),
      MatchBnd lb (i + 1) best →
      (∀ t, nthD ks t ≤ min (i + 1) (j0 + t + 1)) →
      j0 + ks.length ≤ lb →
      MatchBnd lb (i + 1) (bestScan i ks j0 best) := by
  intro ks
  induction ks with
  | nil => intro j0 best hb _ _; simpa [bestScan] using hb
  | cons k ks ih =>
    intro j0 best hb hv hlen
    simp only [bestScan]
    have hlen2 : j0 + 1 + ks.length ≤ lb := by
      simp only [List.length_cons] at hlen; omega
    apply ih (j0 + 1)
    · by_cases hupd : best.2.2 < k
      · rw [if_pos hupd]
        have hk := hv 0
        simp only [nthD] at hk
        have hk2 := le_min_iff.mp hk
        exact ⟨by simp [MatchBnd] at hb ⊢; omega, by simp [MatchBnd] at hb ⊢; omega⟩
      · rw [if_neg hupd]; exact hb
    · intro t
      have h := hv (t + 1)
      simp only [nthD] at h
      have harith : j0 + (t + 1) + 1 = j0 + 1 + t + 1 := by omega
      rw [harith] at h
      exact h
    · exact hlen2

theorem flmGo_bound (pop : Char → Bool) (b : List Char) :
    ∀ (as : List Char) (i : Nat) (prev : List Nat) (best : Nat × Nat × Nat),
      (∀ j, nthD prev j ≤ min i (j + 1)) →
      MatchBnd b.length i best →
      MatchBnd b.length (i + as.length) (flmGo pop b as i prev best) := by
  intro as
  induction as with
  | nil => intro i prev best _ hb; simpa [flmGo] using hb
  | cons c as ih =>
    intro i prev best hprev hb
    simp only [flmGo]
    have hrow : ∀ j, nthD (simRow pop c b (0 :: prev)) j ≤ min (i + 1) (j + 1) := by
      intro j
      have h1 := simRow_nthD_le pop c b (0 :: prev) j
      cases j with
      | zero =>
        simp only [nthD] at h1
        omega
      | succ j =>
        have h2 : nthD (0 :: prev) (j + 1) = nthD prev j := rfl
        rw [h2] at h1
        have h3 := hprev j
        have h4 := le_min_iff.mp h3
        rw [le_min_iff]
        omega
    have hscan : MatchBnd b.length (i + 1)
        (bestScan i (simRow pop c b (0 :: prev)) 0 best) := by
      apply bestScan_bound
      · exact ⟨by have := hb.1; omega, hb.2⟩
      · intro t; simpa using hrow t
      · simp [simRow_length]
    have h5 := ih (i + 1) (simRow pop c b (0 :: prev))
      (bestScan i (simRow pop c b (0 :: prev)) 0 best) hrow hscan
    have harith : i + 1 + as.length = i + (as.length + 1) := by omega
    rw [harith] at h5
    simpa using h5

theorem extendFront_bound (a b : List Char) :
    ∀ (bi bj size : Nat), bi + size ≤ a.length → bj + size ≤ b.length →
      (extendFront a b bi bj size).1 + (extendFront a b bi bj size).2.2 ≤ a.length ∧
      (extendFront a b bi bj size).2.1 + (extendFront a b bi bj size).2.2 ≤ b.length := by
  intro bi
  induction bi with
  | zero => intro bj size h1 h2; simp only [extendFront]; exact ⟨by omega, h2⟩
  | succ bi ih =>
    intro bj size h1 h2
    cases bj with
    | zero => simp only [extendFront]; exact ⟨h1, by omega⟩
    | succ bj =>
      simp only [extendFront]
      split
      · split
        · exact ih bj (size + 1) (by omega) (by omega)
        · exact ⟨h1, h2⟩
      · exact ⟨h1, h2⟩

theorem extendBackF_bound (a b : List Char) (bi bj : Nat) :
    ∀ (fuel size : Nat), bi + size ≤ a.length → bj + size ≤ b.length →
      bi + extendBackF a b bi bj size fuel ≤ a.length ∧
      bj + extendBackF a b bi bj size fuel ≤ b.length := by
  intro fuel
  induction fuel with
  | zero => intro size h1 h2; exact ⟨h1, h2⟩
  | succ fuel ih =>
    intro size h1 h2
    simp only [extendBackF]
    split
    · rename_i x y h1' h2'
      have hlt1 : bi + size < a.length := (List.getElem?_eq_some_iff.mp h1').1
      have hlt2 : bj + size < b.length := (List.getElem?_eq_some_iff.mp h2').1
      split
      · exact ih (size + 1) (by omega) (by omega)
      · exact ⟨h1, h2⟩
    · exact ⟨h1, h2⟩

theorem extendBack_bound (a b : List Char) (bi bj size : Nat)
    (h1 : bi + size ≤ a.length) (h2 : bj + size ≤ b.length) :
    bi + extendBack a b bi bj size ≤ a.length ∧
    bj + extendBack a b bi bj size ≤ b.length :=
  extendBackF_bound a b bi bj (a.length - (bi + size)) size h1 h2

theorem flm_inrange (pop : Char → Bool) (a b : List Char) :
    (findLongestMatch pop a b).1 + (findLongestMatch pop a b).2.2 ≤ a.length ∧
    (findLongestMatch pop a b).2.1 + (findLongestMatch pop a b).2.2 ≤ b.length := by
  have hgo := flmGo_bound pop b a 0 (List.replicate b.length 0) (0, 0, 0)
    (by intro j; simp [nthD_replicate]) ⟨by simp [MatchBnd], by simp [MatchBnd]⟩
  simp only [Nat.zero_add] at hgo
  set d := flmGo pop b a 0 (List.replicate b.length 0) (0, 0, 0) with hd
  have hfront := extendFront_bound a b d.1 d.2.1 d.2.2 hgo.1 hgo.2
  set f := extendFront a b d.1 d.2.1 d.2.2 with hf
  have hback := extendBack_bound a b f.1 f.2.1 f.2.2 hfront.1 hfront.2
  simp only [findLongestMatch]
  rw [← hd, ← hf]
  exact hback

/-- Sum of the sizes of the matching blocks of get_matching_blocks, with an
explicit recursion bound: take the longest match, then recurse on the slices
to its left and to its right.  Only this total enters ratio(). -/
def matchingTotalF (pop : Char → Bool) : Nat → List Char → List Char → Nat
  | 0, _, _ => 0
  | fuel + 1, a, b =>
    if (findLongestMatch pop a b).2.2 = 0 then 0
    else
      matchingTotalF pop fuel (a.take (findLongestMatch pop a b).1)
          (b.take (findLongestMatch pop a b).2.1)
        + (findLongestMatch pop a b).2.2
        + matchingTotalF pop fuel
            (a.drop ((findLongestMatch pop a b).1 + (findLongestMatch pop a b).2.2))
            (b.drop ((findLongestMatch pop a b).2.1 + (findLongestMatch pop a b).2.2))

/-- Sum of the matching block sizes.  By flm_inrange each recursive call
strictly shrinks the combined slice length, so the bound a.length + b.length
+ 1 is never exhausted and the zero-fuel branch is unreachable. -/
def matchingTotal (pop : Char → Bool) (a b : List Char) : Nat :=
  matchingTotalF pop (a.length + b.length + 1) a b

/-- SequenceMatcher(None, a, b).ratio(): 2 * M / T with T the sum of the
lengths, where two empty sequences have ratio 1; the popularity junk is
computed from b. -/
def ratioQ (a b : List Char) : ℚ :=
  if a.length + b.length = 0 then 1
  else 2 * (matchingTotal (isPopular b) a b : ℚ) / ((a.length : ℚ) + (b.length : ℚ))

/-- Python str.lower modelled as the character-wise lowercase map (the titles
the claims exercise are ASCII or caseless). -/
def pyLower (s : String) : String :=
  ⟨s.data.map Char.toLower⟩

/-! ## Deduplicator and ArticleGroup (src/denbust/dedup/similarity.py) -/

/-- ArticleGroup: the member list, in insertion order.  The source always
creates a group with one article, so the list is nonempty in every reachable
state. -/
structure ArticleGroup where
  articles : List ClassifiedArticle
deriving DecidableEq, Repr, Inhabited

/-- ArticleGroup.add: append a member. -/
def ArticleGroup.add (g : ArticleGroup) (x : ClassifiedArticle) : ArticleGroup :=
  ⟨g.articles ++ [x]⟩

/-- Strict comparison of the Python sort key (len(snippet), -date.timestamp())
used by ArticleGroup.primary. -/
def snippetKeyGt (x y : ClassifiedArticle) : Bool :=
  decide (y.article.snippet.length < x.article.snippet.length) ||
    (x.article.snippet.length == y.article.snippet.length &&
      decide (x.article.date < y.article.date))

/-- Python max with a key function: scan left to right keeping the current
maximum, replacing it only on a strictly greater key (so the earliest maximal
element wins ties). -/
def pyMaxBy : ClassifiedArticle → List ClassifiedArticle → ClassifiedArticle
  | best, [] => best
  | best, x :: xs => pyMaxBy (if snippetKeyGt x best then x else best) xs

/-- ArticleGroup.primary: the member with the longest snippet, ties broken by
the earliest date.  Python max raises on an empty sequence; groups are never
empty in the source, and the empty case returns an unreachable default. -/
def ArticleGroup.primary (g : ArticleGroup) : ClassifiedArticle :=
  match g.articles with
  | [] => default
  | x :: xs => pyMaxBy x xs

/-- Deduplicator._is_similar: SequenceMatcher ratio of the lowercased titles
is at least the threshold. -/
def Deduplicator.is_similar (threshold : ℚ) (a1 a2 : ClassifiedArticle) : Bool :=
  decide (threshold ≤ ratioQ (pyLower a1.article.title).data (pyLower a2.article.title).data)

/-- One step of Deduplicator.group: _find_matching_group scans the existing
groups in creation order and compares the article against each current
primary; the article is appended to the first group that matches, and
otherwise a new singleton group is appended at the end. -/
def Deduplicator.addToGroups (threshold : ℚ) (gs : List ArticleGroup)
    (x : ClassifiedArticle) : List ArticleGroup :=
  match gs with
  | [] => [⟨[x]⟩]
  | g :: rest =>
    if Deduplicator.is_similar threshold x g.primary then g.add x :: rest
    else g :: Deduplicator.addToGroups threshold rest x

/-- Deduplicator.group: single left-to-right pass over the articles (the
early return on an empty input returns the empty group list, which the fold
also yields). -/
def Deduplicator.group (threshold : ℚ) (articles : List ClassifiedArticle) : List ArticleGroup :=
  articles.foldl (Deduplicator.addToGroups threshold) []

/-- Deduplicator._group_to_unified. -/
def Deduplicator.group_to_unified (g : ArticleGroup) : UnifiedItem :=
  { headline := g.primary.article.title
    summary := g.primary.article.snippet
    sources := g.articles.map (fun a => ⟨a.article.source_name, a.article.url⟩)
    date := g.primary.article.date
    category := g.primary.classification.category
    sub_category := g.primary.classification.sub_category }

/-- Deduplicator.deduplicate: group, then unify each group. -/
def Deduplicator.deduplicate (threshold : ℚ)
    (articles : List ClassifiedArticle) : List UnifiedItem :=
  (Deduplicator.group threshold articles).map Deduplicator.group_to_unified

/-! ### ratio of a string with itself

With no popular characters (every title below 200 characters) the dynamic
programming pass on a pair of identical strings tracks the diagonal: after
row i the best match is (0, 0, i + 1), so find_longest_match returns the
whole string and the matching total is its length. -/

theorem nthD_of_getElem? (pop : Char → Bool) (c : Char) :
    ∀ (b : List Char) (old : List Nat) (j : Nat) (x : Char), b[j]? = some x →
      nthD (simRow pop c b old) j = if x == c && !pop x then nthD old j + 1 else 0 := by
  intro b
  induction b with
  | nil => intro old j x hx; simp at hx
  | cons y ys ih =>
    intro old j x hx
    cases j with
    | zero =>
      simp only [List.getElem?_cons_zero, Option.some.injEq] at hx
      subst hx
      simp [simRow, nthD, nthD_zero]
    | succ j =>
      simp only [List.getElem?_cons_succ] at hx
      have h := ih old.tail j x hx
      simp only [simRow, nthD]
      rw [h, nthD_succ]

theorem nthD_take (n : Nat) :
    ∀ (l : List Nat) (t : Nat), nthD (l.take n) t = if t < n then nthD l t else 0 := by
  induction n with
  | zero => intro l t; simp [nthD]
  | succ n ih =>
    intro l t
    cases l with
    | nil => cases t <;> simp [nthD]
    | cons x xs =>
      cases t with
      | zero => simp [nthD]
      | succ t =>
        simp only [List.take, nthD]
        rw [ih xs t]
        by_cases h : t < n
        · rw [if_pos h, if_pos (by omega)]
        · rw [if_neg h, if_neg (by omega)]

theorem nthD_drop (n : Nat) :
    ∀ (l : List Nat) (t : Nat), nthD (l.drop n) t = nthD l (n + t) := by
  induction n with
  | zero => intro l t; simp [nthD]
  | succ n ih =>
    intro l t
    cases l with
    | nil => simp [nthD]
    | cons x xs =>
      simp only [List.drop, nthD]
      rw [ih xs t]
      have : n + 1 + t = (n + t) + 1 := by omega
      rw [this]
      rfl

theorem bestScan_append (i : Nat) :
    ∀ (ks1 ks2 : List Nat) (j0 : Nat) (best : Nat × Nat × Nat),
      bestScan i (ks1 ++ ks2) j0 best = bestScan i ks2 (j0 + ks1.length) (bestScan i ks1 j0 best) := by
  intro ks1
  induction ks1 with
  | nil => intro ks2 j0 best; simp [bestScan]
  | cons k ks ih =>
    intro ks2 j0 best
    simp only [List.cons_append, bestScan, List.append_eq]
    rw [ih]
    have : j0 + 1 + ks.length = j0 + (ks.length + 1) := by omega
    rw [this]
    rfl

theorem bestScan_no_update (i : Nat) :
    ∀ (ks : List Nat) (j0 : Nat) (best : Nat × Nat × Nat),
      (∀ t, nthD ks t ≤ best.2.2) → bestScan i ks j0 best = best := by
  intro ks
  induction ks with
  | nil => intro j0 best _; simp [bestScan]
  | cons k ks ih =>
    intro j0 best hval
    have hk := hval 0
    simp only [nthD] at hk
    simp only [bestScan]
    rw [if_neg (by omega)]
    exact ih (j0 + 1) best (fun t => by
      have := hval (t + 1)
      simpa [nthD] using this)

theorem drop_eq_nthD_cons :
    ∀ (l : List Nat) (n : Nat), n < l.length → l.drop n = nthD l n :: l.drop (n + 1) := by
  intro l
  induction l with
  | nil => intro n h; simp at h
  | cons x xs ih =>
    intro n h
    cases n with
    | zero => simp [nthD]
    | succ n => simpa [nthD, List.drop] using ih n (by simpa using h)

theorem flmGo_diag (pop : Char → Bool) (s : List Char) (hpop : ∀ c, pop c = false) :
    ∀ (suff pre : List Char), pre ++ suff = s →
      ∀ (prev : List Nat),
        (∀ j, nthD prev j ≤ min pre.length (j + 1)) →
        (0 < pre.length → nthD prev (pre.length - 1) = pre.length) →
        flmGo pop s suff pre.length prev (0, 0, pre.length) = (0, 0, s.length) := by
  intro suff
  induction suff with
  | nil =>
    intro pre hpre prev _ _
    simp only [flmGo]
    rw [← hpre]
    simp
  | cons c rest ih =>
    intro pre hpre prev hbnd hdiag
    have hslen : s.length = pre.length + rest.length + 1 := by
      rw [← hpre]; simp; omega
    have hsc : s[pre.length]? = some c := by
      rw [← hpre]
      rw [List.getElem?_append_right (le_refl pre.length)]
      simp
    have hrowlen : (simRow pop c s (0 :: prev)).length = s.length := simRow_length pop c s _
    -- row bound
    have hrowbnd : ∀ j, nthD (simRow pop c s (0 :: prev)) j ≤ min (pre.length + 1) (j + 1) := by
      intro j
      have h1 := simRow_nthD_le pop c s (0 :: prev) j
      cases j with
      | zero => simp only [nthD] at h1; omega
      | succ j =>
        have h2 : nthD (0 :: prev) (j + 1) = nthD prev j := rfl
        rw [h2] at h1
        have h3 := hbnd j
        rw [le_min_iff] at h3 ⊢
        omega
    -- diagonal value
    have hrowdiag : nthD (simRow pop c s (0 :: prev)) pre.length = pre.length + 1 := by
      have h0 := nthD_of_getElem? pop c s (0 :: prev) pre.length c hsc
      rw [h0, if_pos (by simp [hpop])]
      congr 1
      cases hp : pre.length with
      | zero => simp [nthD]
      | succ m =>
        have : nthD (0 :: prev) (m + 1) = nthD prev m := rfl
        rw [this]
        have := hdiag (by omega)
        simpa [hp] using this
    -- the scan of this row moves the best match to (0, 0, pre.length + 1)
    have hscan : bestScan pre.length (simRow pop c s (0 :: prev)) 0 (0, 0, pre.length)
        = (0, 0, pre.length + 1) := by
      have hsplit : simRow pop c s (0 :: prev) =
          (simRow pop c s (0 :: prev)).take pre.length ++
          (simRow pop c s (0 :: prev)).drop pre.length := by simp
      rw [hsplit, bestScan_append]
      have htake : bestScan pre.length ((simRow pop c s (0 :: prev)).take pre.length) 0
          (0, 0, pre.length) = (0, 0, pre.length) := by
        apply bestScan_no_update
        intro t
        rw [nthD_take]
        by_cases ht : t < pre.length
        · rw [if_pos ht]
          have := hrowbnd t
          rw [le_min_iff] at this
          simp only
          omega
        · rw [if_neg ht]; simp
      rw [htake]
      have hlt : pre.length < s.length := by omega
      have hdropcons : (simRow pop c s (0 :: prev)).drop pre.length =
          nthD (simRow pop c s (0 :: prev)) pre.length ::
          (simRow pop c s (0 :: prev)).drop (pre.length + 1) :=
        drop_eq_nthD_cons _ pre.length (by omega)
      rw [hdropcons, hrowdiag]
      simp only [bestScan]
      rw [List.length_take, min_eq_left (by omega)]
      rw [if_pos (by simp)]
      simp only [Nat.zero_add, Nat.add_sub_cancel]
      have : pre.length + 1 - (pre.length + 1) = 0 := by omega
      rw [this]
      apply bestScan_no_update
      intro t
      rw [nthD_drop]
      have := hrowbnd (pre.length + 1 + t)
      rw [le_min_iff] at this
      simp only
      omega
    simp only [flmGo]
    rw [hscan]
    have happ : (pre ++ [c]) ++ rest = s := by simpa using hpre
    have hlen1 : pre.length + 1 = (pre ++ [c]).length := by simp
    rw [hlen1]
    apply ih (pre ++ [c]) happ
    · intro j
      have := hrowbnd j
      simpa using this
    · intro _
      simp only [List.length_append, List.length_cons, List.length_nil]
      have : pre.length + 1 - 1 = pre.length := by omega
      simpa [this] using hrowdiag

theorem flm_self (pop : Char → Bool) (s : List Char) (hpop : ∀ c, pop c = false) :
    findLongestMatch pop s s = (0, 0, s.length) := by
  have hgo : flmGo pop s s 0 (List.replicate s.length 0) (0, 0, 0) = (0, 0, s.length) := by
    have h := flmGo_diag pop s hpop s [] rfl (List.replicate s.length 0)
      (fun j => by simp [nthD_replicate]) (fun h => absurd h (by simp))
    simpa using h
  simp only [findLongestMatch]
  rw [hgo]
  simp only [extendFront, extendBack, Nat.zero_add, Nat.sub_self]
  rfl

theorem matchingTotalF_nil (pop : Char → Bool) :
    ∀ fuel, matchingTotalF pop fuel [] [] = 0 := by
  intro fuel
  cases fuel with
  | zero => rfl
  | succ fuel => rfl

theorem matchingTotal_self (pop : Char → Bool) (s : List Char) (hpop : ∀ c, pop c = false) :
    matchingTotal pop s s = s.length := by
  cases hs : s with
  | nil => rfl
  | cons c rest =>
    rw [← hs]
    have hne : s.length ≠ 0 := by rw [hs]; simp
    simp only [matchingTotal]
    have hfuel : s.length + s.length + 1 = (s.length + s.length) + 1 := rfl
    rw [hfuel]
    simp only [matchingTotalF, flm_self pop s hpop]
    rw [if_neg hne]
    simp only [List.take_zero, Nat.zero_add, List.drop_length, matchingTotalF_nil]
    omega

theorem ratioQ_self (s : List Char) (h200 : s.length < 200) : ratioQ s s = 1 := by
  have hpop : ∀ c, isPopular s c = false := by
    intro c
    simp only [isPopular, Bool.and_eq_false_iff]
    left
    simpa using by omega
  by_cases h0 : s.length = 0
  · simp [ratioQ, h0]
  · have hM := matchingTotal_self (isPopular s) s hpop
    simp only [ratioQ, hM]
    rw [if_neg (by omega)]
    have hx : (s.length : ℚ) ≠ 0 := by
      simpa using h0
    rw [div_eq_one_iff_eq (by
      intro hc
      apply hx
      have : (s.length : ℚ) + (s.length : ℚ) = 0 := hc
      linarith)]
    ring

/-- Evaluation helper for concrete ratio computations: the Nat-valued parts
are computed by kernel reduction and the rational arithmetic is left to the
caller. -/
theorem ratioQ_eval (a b : List Char) (M : Nat)
    (hM : matchingTotal (isPopular b) a b = M) (h : a.length + b.length ≠ 0) :
    ratioQ a b = 2 * (M : ℚ) / ((a.length : ℚ) + (b.length : ℚ)) := by
  simp only [ratioQ, hM]
  rw [if_neg h]

/-! ## JSON values and classifier response parsing
(src/denbust/classifier/relevance.py, src/denbust/store/seen.py) -/

/-- JSON documents as decoded by json.loads. -/
inductive Jval where
  | obj (fields : List (String × Jval))
  | arr (elems : List Jval)
  | str (s : String)
  | num (q : ℚ)
  | jbool (b : Bool)
  | null

/-- dict.get on a decoded JSON object (keys of a decoded dict are unique, so
first match is the value). -/
def jget : List (String × Jval) → String → Option Jval
  | [], _ => none
  | (k, v) :: rest, key => if k == key then some v else jget rest key

/-- Python exceptions that escape the modelled fragments. -/
inductive PyErr where
  | attributeError
  | typeError
deriving DecidableEq, Repr

/-- Python truthiness of a decoded JSON value. -/
def jvalTruthy : Jval → Bool
  | .null => false
  | .jbool b => b
  | .num q => decide (q ≠ 0)
  | .str s => !(s == "")
  | .arr l => !l.isEmpty
  | .obj f => !f.isEmpty

/-- SeenStore._load.  The backing file is abstracted to
none = file does not exist (empty state);
some none = open or json.load fails (OSError / JSONDecodeError, both caught:
empty state);
some (some doc) = the decoded JSON document.  On a dict document the state
becomes data.get("urls", \x7b\x7d); on any other document data.get raises
AttributeError, which the except clause of _load does not catch. -/
def SeenStore.load : Option (Option Jval) → Except PyErr Jval
  | none => .ok (.obj [])
  | some none => .ok (.obj [])
  | some (some (.obj fields)) => .ok ((jget fields "urls").getD (.obj []))
  | some (some _) => .error .attributeError

/-- len() of a decoded JSON value: defined for dicts, lists and strings,
TypeError otherwise.  SeenStore.count applies it to the loaded state. -/
def pyLen : Jval → Except PyErr Nat
  | .obj f => .ok f.length
  | .arr l => .ok l.length
  | .str s => .ok s.length
  | _ => .error .typeError

/-- Category(s) of the StrEnum in data_models.py, ValueError as none. -/
def categoryOfString (s : String) : Option Category :=
  if s == "brothel" then some .brothel
  else if s == "prostitution" then some .prostitution
  else if s == "pimping" then some .pimping
  else if s == "trafficking" then some .trafficking
  else if s == "enforcement" then some .enforcement
  else if s == "not_relevant" then some .not_relevant
  else none

/-- SubCategory(s) of the StrEnum in data_models.py, ValueError as none. -/
def subCategoryOfString (s : String) : Option SubCategory :=
  if s == "closure" then some .closure
  else if s == "opening" then some .opening
  else if s == "arrest" then some .arrest
  else if s == "fine" then some .fine
  else if s == "sentence" then some .sentence
  else if s == "rescue" then some .rescue
  else if s == "operation" then some .operation
  else if s == "other" then some .other
  else none

/-- String value of a SubCategory member. -/
def subCategoryStr : SubCategory → String
  | .closure => "closure"
  | .opening => "opening"
  | .arrest => "arrest"
  | .fine => "fine"
  | .sentence => "sentence"
  | .rescue => "rescue"
  | .operation => "operation"
  | .other => "other"

/-- Valid sub-category subset of each category, as documented by the
classification prompt in relevance.py (brothel: closure, opening;
prostitution: arrest, fine; pimping: arrest, sentence; trafficking: arrest,
rescue, sentence; enforcement: operation, other). -/
def validSub : Category → SubCategory → Bool
  | .brothel, .closure => true
  | .brothel, .opening => true
  | .prostitution, .arrest => true
  | .prostitution, .fine => true
  | .pimping, .arrest => true
  | .pimping, .sentence => true
  | .trafficking, .arrest => true
  | .trafficking, .rescue => true
  | .trafficking, .sentence => true
  | .enforcement, .operation => true
  | .enforcement, .other => true
  | _, _ => false

/-- Classifier._parse_response after json decoding: the argument none models
a JSONDecodeError (caught: the not-relevant low-confidence default); the
markdown fence stripping happens before decoding and is absorbed into the
argument.  A decoded non-object makes data.get raise AttributeError, which
the except clause (json.JSONDecodeError, KeyError) does not catch.  On an
object: category falls back to not_relevant for an unknown or non-string
tag; a falsy sub_category is skipped, a non-member or non-string one has its
ValueError suppressed to None; confidence outside high / medium / low
becomes medium; relevant is the truthiness of the field. -/
def Classifier.parse_response : Option Jval → Except PyErr ClassificationResult
  | none => .ok ⟨false, .not_relevant, none, "low"⟩
  | some (.obj fields) =>
    .ok ⟨jvalTruthy ((jget fields "relevant").getD (.jbool false)),
      (match (jget fields "category").getD (.str "not_relevant") with
        | .str s => (categoryOfString s).getD .not_relevant
        | _ => .not_relevant),
      (match jget fields "sub_category" with
        | some v =>
          if jvalTruthy v then
            match v with
            | .str s => subCategoryOfString s
            | _ => none
          else none
        | none => none),
      (match (jget fields "confidence").getD (.str "medium") with
        | .str s => if s == "high" || s == "medium" || s == "low" then s else "medium"
        | _ => "medium")⟩
  | some _ => .error .attributeError

/-! ## Pipeline orchestrator (src/denbust/pipeline.py)

run_pipeline_async is embedded as a pure function of an environment (the
config flags and the outcomes of the external fetch and classify calls) and
the seen store loaded at start.  Classification is per article, so a second
run with identical per-item classifier responses is the same function. -/

/-- Environment of one pipeline run. -/
structure PipelineEnv where
  /-- config.anthropic_api_key is set (precondition check). -/
  hasApiKey : Bool
  /-- One entry per enabled source: none models a fetch that raised (the
  orchestrator logs and continues), some the returned articles. -/
  fetchResults : List (Option (List RawArticle))
  /-- Outcome of classifier.classify per article (classify never raises:
  internal failures already map to the not-relevant default). -/
  classify : RawArticle → ClassificationResult
  /-- config.dedup.similarity_threshold. -/
  threshold : ℚ
  /-- Modelled from the spec: Config.max_articles, the advisory volume
  ceiling of pipeline step 3 - referenced by run_pipeline_async and asserted
  by tests/unit/test_config.py (default 30) but absent from the Config model
  in src/denbust/config.py; per the spec exceeding it only logs a warning
  and the run continues. -/
  maxArticles : Nat
  /-- datetime.now(UTC).isoformat() at commit time. -/
  nowTs : String

/-- Result of one run: the emitted items, the in-memory seen store after the
run, and whether SeenStore.save wrote the backing file. -/
structure RunResult where
  items : List UnifiedItem
  store : SeenStore
  saved : Bool
deriving DecidableEq, Repr

/-- fetch_all_sources: concatenate the articles of every source in order; a
source whose fetch raised contributes nothing. -/
def fetchedArticles (env : PipelineEnv) : List RawArticle :=
  env.fetchResults.flatMap (fun r => r.getD [])

/-- filter_seen of pipeline.py: keep the articles whose url is not seen. -/
def filter_seen (articles : List RawArticle) (st : SeenStore) : List RawArticle :=
  articles.filter (fun a => !st.is_seen a.url)

/-- classify_articles: classify each article in order, then keep the relevant
ones. -/
def classify_articles (env : PipelineEnv) (articles : List RawArticle) : List ClassifiedArticle :=
  (articles.map (fun a => ⟨a, env.classify a⟩)).filter (fun c => c.classification.relevant)

/-- Urls marked by mark_seen of pipeline.py: every source url of every
emitted item, in order. -/
def itemUrls (items : List UnifiedItem) : List String :=
  items.flatMap (fun it => it.sources.map (fun sr => sr.url))

/-- run_pipeline_async: precondition check, fetch, seen-filter, advisory
volume check (log only), classify, deduplicate, commit.  Every early exit
returns no items, the untouched store and no save. -/
def run_pipeline_async (env : PipelineEnv) (st0 : SeenStore) : RunResult :=
  if !env.hasApiKey then ⟨[], st0, false⟩
  else if env.fetchResults.isEmpty then ⟨[], st0, false⟩
  else if (fetchedArticles env).isEmpty then ⟨[], st0, false⟩
  else if (filter_seen (fetchedArticles env) st0).isEmpty then ⟨[], st0, false⟩
  else if (classify_articles env (filter_seen (fetchedArticles env) st0)).isEmpty then
    ⟨[], st0, false⟩
  else
    ⟨Deduplicator.deduplicate env.threshold
        (classify_articles env (filter_seen (fetchedArticles env) st0)),
      st0.mark_seen env.nowTs
        (itemUrls (Deduplicator.deduplicate env.threshold
          (classify_articles env (filter_seen (fetchedArticles env) st0)))),
      true⟩

/-! ## Lemmas about the grouping pass -/

/-- Step description in the words of the spec: scan the existing groups in
creation order, append the item to the first group whose current primary is
similar enough, otherwise open a new singleton group at the end. -/
def groupStepSpec (threshold : ℚ) (gs : List ArticleGroup)
    (x : ClassifiedArticle) : List ArticleGroup :=
  match gs.findIdx? (fun g => Deduplicator.is_similar threshold x g.primary) with
  | some i => gs.take i ++ [⟨(gs.getD i default).articles ++ [x]⟩] ++ gs.drop (i + 1)
  | none => gs ++ [⟨[x]⟩]

theorem addToGroups_eq_spec (threshold : ℚ) :
    ∀ (gs : List ArticleGroup) (x : ClassifiedArticle),
      Deduplicator.addToGroups threshold gs x = groupStepSpec threshold gs x := by
  intro gs
  induction gs with
  | nil => intro x; simp [Deduplicator.addToGroups, groupStepSpec]
  | cons g rest ih =>
    intro x
    simp only [Deduplicator.addToGroups, groupStepSpec, List.findIdx?_cons]
    by_cases hsim : Deduplicator.is_similar threshold x g.primary
    · simp [hsim, ArticleGroup.add]
    · simp only [hsim, Bool.false_eq_true, if_false, Nat.zero_add]
      rw [ih x]
      simp only [groupStepSpec]
      cases hfind : rest.findIdx? (fun g => Deduplicator.is_similar threshold x g.primary) with
      | none => simp [hfind]
      | some i => simp [hfind, List.getD]

theorem group_append_one (threshold : ℚ) (xs : List ClassifiedArticle) (x : ClassifiedArticle) :
    Deduplicator.group threshold (xs ++ [x]) =
      Deduplicator.addToGroups threshold (Deduplicator.group threshold xs) x := by
  simp [Deduplicator.group, List.foldl_append]

/-- All member articles of a group list, in group order. -/
def groupArticles (gs : List ArticleGroup) : List ClassifiedArticle :=
  gs.flatMap ArticleGroup.articles

theorem addToGroups_join_perm (threshold : ℚ) :
    ∀ (gs : List ArticleGroup) (x : ClassifiedArticle),
      (groupArticles (Deduplicator.addToGroups threshold gs x)).Perm
        (groupArticles gs ++ [x]) := by
  intro gs
  induction gs with
  | nil => intro x; simp [Deduplicator.addToGroups, groupArticles]
  | cons g rest ih =>
    intro x
    simp only [Deduplicator.addToGroups]
    by_cases hsim : Deduplicator.is_similar threshold x g.primary
    · rw [if_pos hsim]
      simp only [groupArticles, List.flatMap_cons, ArticleGroup.add]
      have h2 : (([x] ++ rest.flatMap ArticleGroup.articles)).Perm
          (rest.flatMap ArticleGroup.articles ++ [x]) := List.perm_append_comm
      simpa [List.append_assoc] using List.Perm.append_left g.articles h2
    · rw [if_neg hsim]
      simp only [groupArticles, List.flatMap_cons]
      have h3 := ih x
      simp only [groupArticles] at h3
      simpa [List.append_assoc] using List.Perm.append_left g.articles h3

theorem foldl_join_perm (threshold : ℚ) :
    ∀ (xs : List ClassifiedArticle) (gs : List ArticleGroup),
      (groupArticles (xs.foldl (Deduplicator.addToGroups threshold) gs)).Perm
        (groupArticles gs ++ xs) := by
  intro xs
  induction xs with
  | nil => intro gs; simp
  | cons x rest ih =>
    intro gs
    simp only [List.foldl_cons]
    have h1 := ih (Deduplicator.addToGroups threshold gs x)
    have h3 := (addToGroups_join_perm threshold gs x).append_right rest
    have h4 : (groupArticles gs ++ [x]) ++ rest = groupArticles gs ++ x :: rest := by simp
    rw [h4] at h3
    exact h1.trans h3

theorem group_join_perm (threshold : ℚ) (xs : List ClassifiedArticle) :
    (groupArticles (Deduplicator.group threshold xs)).Perm xs := by
  have h := foldl_join_perm threshold xs []
  simpa [groupArticles, Deduplicator.group] using h

theorem addToGroups_cases (threshold : ℚ) :
    ∀ (gs : List ArticleGroup) (x : ClassifiedArticle) (g' : ArticleGroup),
      g' ∈ Deduplicator.addToGroups threshold gs x →
      g' ∈ gs ∨ (∃ g ∈ gs, g' = ⟨g.articles ++ [x]⟩) ∨ g' = ⟨[x]⟩ := by
  intro gs
  induction gs with
  | nil =>
    intro x g' hmem
    simp only [Deduplicator.addToGroups, List.mem_singleton] at hmem
    exact Or.inr (Or.inr hmem)
  | cons g rest ih =>
    intro x g' hmem
    simp only [Deduplicator.addToGroups] at hmem
    by_cases hsim : Deduplicator.is_similar threshold x g.primary
    · rw [if_pos hsim] at hmem
      rcases List.mem_cons.mp hmem with h | h
      · exact Or.inr (Or.inl ⟨g, List.mem_cons_self g rest, by simp [h, ArticleGroup.add]⟩)
      · exact Or.inl (List.mem_cons_of_mem g h)
    · rw [if_neg hsim] at hmem
      rcases List.mem_cons.mp hmem with h | h
      · exact Or.inl (by simp [h])
      · rcases ih x g' h with h2 | h2 | h2
        · exact Or.inl (List.mem_cons_of_mem g h2)
        · rcases h2 with ⟨g0, hg0, hg0e⟩
          exact Or.inr (Or.inl ⟨g0, List.mem_cons_of_mem g hg0, hg0e⟩)
        · exact Or.inr (Or.inr h2)

theorem foldl_groups_sublist (threshold : ℚ) :
    ∀ (xs : List ClassifiedArticle) (gs : List ArticleGroup) (acc : List ClassifiedArticle),
      (∀ g ∈ gs, g.articles ≠ [] ∧ g.articles.Sublist acc) →
      ∀ g' ∈ xs.foldl (Deduplicator.addToGroups threshold) gs,
        g'.articles ≠ [] ∧ g'.articles.Sublist (acc ++ xs) := by
  intro xs
  induction xs with
  | nil => intro gs acc hinv g' hg'; simpa using hinv g' hg'
  | cons x rest ih =>
    intro gs acc hinv g' hg'
    simp only [List.foldl_cons] at hg'
    have hstep : ∀ g2 ∈ Deduplicator.addToGroups threshold gs x,
        g2.articles ≠ [] ∧ g2.articles.Sublist (acc ++ [x]) := by
      intro g2 hg2
      rcases addToGroups_cases threshold gs x g2 hg2 with h | ⟨g0, hg0, he⟩ | he
      · have := hinv g2 h
        exact ⟨this.1, this.2.trans (List.sublist_append_left acc [x])⟩
      · have h0 := hinv g0 hg0
        subst he
        refine ⟨by simp, ?_⟩
        exact List.Sublist.append h0.2 (List.Sublist.refl [x])
      · subst he
        exact ⟨by simp, List.sublist_append_right acc [x]⟩
    have := ih (Deduplicator.addToGroups threshold gs x) (acc ++ [x]) hstep g' hg'
    simpa [List.append_assoc] using this

theorem group_member_sublist (threshold : ℚ) (xs : List ClassifiedArticle) :
    ∀ g ∈ Deduplicator.group threshold xs, g.articles ≠ [] ∧ g.articles.Sublist xs := by
  intro g hg
  have h := foldl_groups_sublist threshold xs [] [] (by simp) g hg
  simpa using h

/-! ## Lemmas about primary selection and the seen ledger -/

/-- Non-strict order on the Python sort key (len(snippet), -timestamp):
a is at most b when a has a shorter snippet, or an equally long snippet and a
date not earlier than b (larger timestamp means smaller key). -/
def snippetKeyLe (a b : ClassifiedArticle) : Prop :=
  a.article.snippet.length < b.article.snippet.length ∨
    (a.article.snippet.length = b.article.snippet.length ∧ b.article.date ≤ a.article.date)

theorem snippetKeyGt_iff (x y : ClassifiedArticle) :
    snippetKeyGt x y = true ↔
      (y.article.snippet.length < x.article.snippet.length ∨
        (x.article.snippet.length = y.article.snippet.length ∧
          x.article.date < y.article.date)) := by
  simp [snippetKeyGt]

theorem not_snippetKeyGt (x y : ClassifiedArticle) (h : ¬snippetKeyGt x y = true) :
    snippetKeyLe x y := by
  rw [snippetKeyGt_iff] at h
  push_neg at h
  rcases Nat.lt_trichotomy x.article.snippet.length y.article.snippet.length with hl | hl | hl
  · exact Or.inl hl
  · exact Or.inr ⟨hl, le_of_not_lt (fun hc => absurd (h.2 hl) (not_le.mpr hc))⟩
  · exact absurd hl (by omega)

theorem snippetKeyGt_le (x y : ClassifiedArticle) (h : snippetKeyGt x y = true) :
    snippetKeyLe y x := by
  rw [snippetKeyGt_iff] at h
  rcases h with h | ⟨h1, h2⟩
  · exact Or.inl h
  · exact Or.inr ⟨h1.symm, le_of_lt h2⟩

theorem snippetKeyLe_trans {a b c : ClassifiedArticle}
    (h1 : snippetKeyLe a b) (h2 : snippetKeyLe b c) : snippetKeyLe a c := by
  rcases h1 with h1 | ⟨h1a, h1b⟩ <;> rcases h2 with h2 | ⟨h2a, h2b⟩
  · exact Or.inl (h1.trans h2)
  · exact Or.inl (by omega)
  · exact Or.inl (by omega)
  · exact Or.inr ⟨h1a.trans h2a, h2b.trans h1b⟩

theorem pyMaxBy_spec :
    ∀ (xs : List ClassifiedArticle) (best : ClassifiedArticle),
      pyMaxBy best xs ∈ best :: xs ∧ snippetKeyLe best (pyMaxBy best xs) ∧
        ∀ a ∈ xs, snippetKeyLe a (pyMaxBy best xs) := by
  intro xs
  induction xs with
  | nil =>
    intro best
    refine ⟨by simp [pyMaxBy], Or.inr ⟨rfl, le_refl _⟩, by simp⟩
  | cons x rest ih =>
    intro best
    simp only [pyMaxBy]
    by_cases hgt : snippetKeyGt x best
    · rw [if_pos hgt]
      obtain ⟨hmem, hle, hall⟩ := ih x
      have hbx : snippetKeyLe best x := snippetKeyGt_le x best hgt
      refine ⟨?_, snippetKeyLe_trans hbx hle, ?_⟩
      · rcases List.mem_cons.mp hmem with h | h
        · exact List.mem_cons_of_mem best (by simp [h])
        · exact List.mem_cons_of_mem best (List.mem_cons_of_mem x h)
      · intro a ha
        rcases List.mem_cons.mp ha with h | h
        · subst h; exact hle
        · exact hall a h
    · rw [if_neg hgt]
      obtain ⟨hmem, hle, hall⟩ := ih best
      have hxb : snippetKeyLe x best := not_snippetKeyGt x best hgt
      refine ⟨?_, hle, ?_⟩
      · rcases List.mem_cons.mp hmem with h | h
        · simp [h]
        · exact List.mem_cons_of_mem best (List.mem_cons_of_mem x h)
      · intro a ha
        rcases List.mem_cons.mp ha with h | h
        · subst h; exact snippetKeyLe_trans hxb hle
        · exact hall a h

theorem primary_spec (g : ArticleGroup) (hne : g.articles ≠ []) :
    g.primary ∈ g.articles ∧ ∀ a ∈ g.articles, snippetKeyLe a g.primary := by
  cases harts : g.articles with
  | nil => exact absurd harts hne
  | cons x xs =>
    obtain ⟨hmem, hle, hall⟩ := pyMaxBy_spec xs x
    simp only [ArticleGroup.primary, harts]
    refine ⟨hmem, ?_⟩
    intro a ha
    rcases List.mem_cons.mp ha with h | h
    · subst h; exact hle
    · exact hall a h

theorem markFold_any (ts : String) :
    ∀ (urls : List String) (acc : List (String × String)) (u : String),
      ((urls.foldl (fun acc u =>
          if acc.any (fun p => p.1 == u) then acc else acc ++ [(u, ts)]) acc).any
        (fun p => p.1 == u) = true) ↔
      (acc.any (fun p => p.1 == u) = true ∨ u ∈ urls) := by
  intro urls
  induction urls with
  | nil => intro acc u; simp
  | cons v rest ih =>
    intro acc u
    simp only [List.foldl_cons]
    rw [ih]
    have hstep : ((if acc.any (fun p => p.1 == v) then acc else acc ++ [(v, ts)]).any
        (fun p => p.1 == u) = true) ↔ (acc.any (fun p => p.1 == u) = true ∨ u = v) := by
      by_cases hv : acc.any (fun p => p.1 == v)
      · rw [if_pos hv]
        constructor
        · exact fun h => Or.inl h
        · rintro (h | h)
          · exact h
          · subst h; exact hv
      · rw [if_neg hv]
        simp only [List.any_append, List.any_cons, List.any_nil, Bool.or_false,
          Bool.or_eq_true, beq_iff_eq]
        constructor
        · rintro (h | h)
          · exact Or.inl h
          · exact Or.inr h.symm
        · rintro (h | h)
          · exact Or.inl h
          · exact Or.inr h.symm
    rw [hstep]
    simp only [List.mem_cons]
    tauto

theorem is_seen_mark_seen (st : SeenStore) (ts : String) (urls : List String) (u : String) :
    (st.mark_seen ts urls).is_seen u = true ↔ st.is_seen u = true ∨ u ∈ urls := by
  simp only [SeenStore.mark_seen, SeenStore.is_seen]
  exact markFold_any ts urls st.seen u

/-! ## Concrete articles for the claim instances -/

/-- Article with a 5 character snippet (primary selection scenario). -/
def artShort : ClassifiedArticle :=
  ⟨⟨"https://example.com/s", "short", "01234", 1771027200, "a"⟩,
    ⟨true, .enforcement, none, "high"⟩⟩

/-- Article with a 40 character snippet dated 2026-02-15T00:00:00+00:00
(POSIX timestamp 1771113600). -/
def artLate : ClassifiedArticle :=
  ⟨⟨"https://example.com/l", "late", "0123456789012345678901234567890123456789",
      1771113600, "b"⟩,
    ⟨true, .enforcement, none, "high"⟩⟩

/-- Article with a 40 character snippet dated 2026-02-14T00:00:00+00:00
(POSIX timestamp 1771027200). -/
def artEarly : ClassifiedArticle :=
  ⟨⟨"https://example.com/e", "early", "0123456789012345678901234567890123456789",
      1771027200, "c"⟩,
    ⟨true, .enforcement, none, "high"⟩⟩

/-- C6: filter_unseen returns the stable-order subsequence of its input
consisting of the locators not currently seen; after marking a set S of
locators seen in the empty store, filtering any input returns exactly the
input elements outside S, in input order. -/
theorem C6_filter_unseen :
    (∀ (st : SeenStore) (us : List String), (st.filter_unseen us).Sublist us) ∧
    (∀ (st : SeenStore) (us : List String) (u : String),
      u ∈ st.filter_unseen us ↔ u ∈ us ∧ st.is_seen u = false) ∧
    (∀ (ts : String) (S us : List String),
      ((SeenStore.mk []).mark_seen ts S).filter_unseen us =
        us.filter (fun u => !S.contains u)) := by
  refine ⟨?_, ?_, ?_⟩
  · intro st us
    exact List.filter_sublist us
  · intro st us u
    simp [SeenStore.filter_unseen]
  · intro ts S us
    apply List.filter_congr
    intro u _
    have h1 := is_seen_mark_seen ⟨[]⟩ ts S u
    have h2 : (SeenStore.mk ([] : List (String × String))).is_seen u = false := rfl
    rw [h2] at h1
    have h3 : (((SeenStore.mk []).mark_seen ts S).is_seen u) = S.contains u := by
      rw [Bool.eq_iff_iff, h1]
      simp [List.elem_iff]
    rw [h3]

/-- C10: group() partitions its input: the members of the output groups are
a permutation of the input (each input occurrence lands in exactly one
group), the group sizes sum to the input length, every group is nonempty,
and each group lists its members in input order (so its first member is the
earliest-fetched one). -/
theorem C10_group_partition (threshold : ℚ) (xs : List ClassifiedArticle) :
    (groupArticles (Deduplicator.group threshold xs)).Perm xs ∧
    (((Deduplicator.group threshold xs).map (fun g => g.articles.length)).sum = xs.length) ∧
    (∀ g ∈ Deduplicator.group threshold xs, g.articles ≠ [] ∧ g.articles.Sublist xs) := by
  refine ⟨group_join_perm threshold xs, ?_, group_member_sublist threshold xs⟩
  have hperm := group_join_perm threshold xs
  have hlen := hperm.length_eq
  simp only [groupArticles, List.length_flatMap] at hlen
  simpa [Function.comp] using hlen

/-- C5: group() is a single left-to-right pass: the empty input yields the
empty output, a single item yields one singleton group, and appending an
item to the input applies one step that adds the item to the first group (in
creation order) whose current primary is similar enough, or else opens a new
singleton group at the end. -/
theorem C5_group_single_pass (threshold : ℚ) :
    Deduplicator.group threshold [] = [] ∧
    (∀ x, Deduplicator.group threshold [x] = [⟨[x]⟩]) ∧
    (∀ xs x, Deduplicator.group threshold (xs ++ [x]) =
      groupStepSpec threshold (Deduplicator.group threshold xs) x) := by
  refine ⟨rfl, ?_, ?_⟩
  · intro x
    simp [Deduplicator.group, Deduplicator.addToGroups]
  · intro xs x
    rw [group_append_one, addToGroups_eq_spec]

/-- C3: for every nonempty group the primary is a member whose snippet no
member exceeds, and among members tying its snippet length none has an
earlier date; concretely, with snippet lengths 5, 40 and 40 where the
40-length members are dated 2026-02-15 and 2026-02-14, the primary is the
2026-02-14 member. -/
theorem C3_primary_selection :
    (∀ (g : ArticleGroup), g.articles ≠ [] →
      g.primary ∈ g.articles ∧ ∀ a ∈ g.articles, snippetKeyLe a g.primary) ∧
    (ArticleGroup.mk [artShort, artLate, artEarly]).primary = artEarly := by
  refine ⟨primary_spec, ?_⟩
  simp only [ArticleGroup.primary, pyMaxBy]
  have h1 : snippetKeyGt artLate artShort = true := by decide
  have h2 : snippetKeyGt artEarly artLate = true := by decide
  rw [if_pos h1, if_pos h2]

/-- Witness for the hypothesis of the general part of C3: the concrete
three-member group is nonempty, and the theorem applies to it. -/
theorem C3_primary_selection_witness :
    ((ArticleGroup.mk [artShort, artLate, artEarly]).articles ≠ [] →
        (ArticleGroup.mk [artShort, artLate, artEarly]).primary ∈
            (ArticleGroup.mk [artShort, artLate, artEarly]).articles ∧
          ∀ a ∈ (ArticleGroup.mk [artShort, artLate, artEarly]).articles,
            snippetKeyLe a (ArticleGroup.mk [artShort, artLate, artEarly]).primary) ∧
    (ArticleGroup.mk [artShort, artLate, artEarly]).articles ≠ [] :=
  ⟨C3_primary_selection.1 (ArticleGroup.mk [artShort, artLate, artEarly]), by simp⟩

/-- C7 (amended): for positive days, prune_older_than keeps exactly the
entries whose parsed timestamp is strictly greater than now - days * 86400
(so an entry exactly at the cutoff is removed, as is everything older), the
returned count plus the kept count is the old size, and an entry whose
timestamp does not parse counts as timestamp 0.0 and is removed whenever the
cutoff is nonnegative. -/
theorem C7_prune_older_than (parse : String → Option ℚ) (now : ℚ) (days : Int)
    (st : SeenStore) (hdays : 0 < days) :
    (SeenStore.prune_older_than parse now days st).1.seen =
      st.seen.filter (fun p =>
        decide (now - (days : ℚ) * 86400 < SeenStore.tsVal parse p.2)) ∧
    (SeenStore.prune_older_than parse now days st).2 +
      (SeenStore.prune_older_than parse now days st).1.seen.length = st.seen.length ∧
    (∀ u ts, (u, ts) ∈ st.seen → parse ts = none → 0 ≤ now - (days : ℚ) * 86400 →
      (u, ts) ∉ (SeenStore.prune_older_than parse now days st).1.seen) := by
  have hno : ¬days ≤ 0 := by omega
  refine ⟨?_, ?_, ?_⟩
  · simp [SeenStore.prune_older_than, hno]
  · simp only [SeenStore.prune_older_than, hno, if_false]
    have := List.length_filter_le
      (fun p => decide (now - (days : ℚ) * 86400 < SeenStore.tsVal parse p.2)) st.seen
    omega
  · intro u ts hmem hnone hcut
    simp only [SeenStore.prune_older_than, hno, if_false, List.mem_filter]
    rintro ⟨-, habs⟩
    have h0 : SeenStore.tsVal parse ts = 0 := by simp [SeenStore.tsVal, hnone]
    rw [h0, decide_eq_true_eq] at habs
    linarith

/-- C7 counterexample: at now = 2026-10-12T00:00:00+00:00 (1791763200) with
days = 30, an entry recorded at 2026-09-12T00:00:00+00:00 sits exactly at
the cutoff now - 30 days, so it is not strictly older than now - days, yet
prune_older_than removes it and reports one removal. -/
theorem C7_prune_counterexample :
    SeenStore.tsVal isoParse "2026-09-12T00:00:00+00:00" =
      (1791763200 : ℚ) - ((30 : Int) : ℚ) * 86400 ∧
    ¬(SeenStore.tsVal isoParse "2026-09-12T00:00:00+00:00" <
      (1791763200 : ℚ) - ((30 : Int) : ℚ) * 86400) ∧
    SeenStore.prune_older_than isoParse 1791763200 30
      ⟨[("u", "2026-09-12T00:00:00+00:00")]⟩ = (⟨[]⟩, 1) := by
  have hc : (1791763200 : ℚ) - ((30 : Int) : ℚ) * 86400 = 1789171200 := by
    push_cast
    norm_num
  have hts : SeenStore.tsVal isoParse "2026-09-12T00:00:00+00:00" = 1789171200 := by decide
  refine ⟨by rw [hc, hts], by rw [hc, hts]; exact lt_irrefl _, ?_⟩
  simp only [SeenStore.prune_older_than]
  rw [if_neg (by decide), hc]
  decide

/-- C7 witness for the amended theorem: the instance at now = 2026-10-12
with days = 30 over a ledger holding a 40 day old entry, a 10 day old entry
and an unparsable one. -/
theorem C7_prune_older_than_witness :
    (0 : Int) < 30 ∧
    ((SeenStore.prune_older_than isoParse 1791763200 30
        ⟨[("a", "2026-09-02T00:00:00+00:00"), ("b", "2026-10-02T00:00:00+00:00"),
          ("c", "corrupt")]⟩).1.seen =
      ([("a", "2026-09-02T00:00:00+00:00"), ("b", "2026-10-02T00:00:00+00:00"),
          ("c", "corrupt")].filter (fun p =>
        decide ((1791763200 : ℚ) - ((30 : Int) : ℚ) * 86400 <
          SeenStore.tsVal isoParse p.2)))) ∧
    (SeenStore.prune_older_than isoParse 1791763200 30
        ⟨[("a", "2026-09-02T00:00:00+00:00"), ("b", "2026-10-02T00:00:00+00:00"),
          ("c", "corrupt")]⟩).2 +
      (SeenStore.prune_older_than isoParse 1791763200 30
        ⟨[("a", "2026-09-02T00:00:00+00:00"), ("b", "2026-10-02T00:00:00+00:00"),
          ("c", "corrupt")]⟩).1.seen.length = 3 ∧
    (∀ u ts, (u, ts) ∈ [("a", "2026-09-02T00:00:00+00:00"),
          ("b", "2026-10-02T00:00:00+00:00"), ("c", "corrupt")] →
      isoParse ts = none → 0 ≤ (1791763200 : ℚ) - ((30 : Int) : ℚ) * 86400 →
      (u, ts) ∉ (SeenStore.prune_older_than isoParse 1791763200 30
        ⟨[("a", "2026-09-02T00:00:00+00:00"), ("b", "2026-10-02T00:00:00+00:00"),
          ("c", "corrupt")]⟩).1.seen) :=
  ⟨by decide,
    C7_prune_older_than isoParse 1791763200 30
      ⟨[("a", "2026-09-02T00:00:00+00:00"), ("b", "2026-10-02T00:00:00+00:00"),
        ("c", "corrupt")]⟩ (by decide)⟩

/-- C8: SeenStore._load yields the empty state (count 0) for a missing
backing file and for an undecodable one without raising, but a backing file
holding valid JSON whose top level is not an object - such as the text
[1, 2] - makes data.get raise AttributeError out of _load, so a corrupt
file can raise to the caller after all. -/
theorem C8_load_behavior :
    SeenStore.load none = .ok (Jval.obj []) ∧
    SeenStore.load (some none) = .ok (Jval.obj []) ∧
    pyLen (Jval.obj []) = .ok 0 ∧
    SeenStore.load (some (some (Jval.arr [Jval.num 1, Jval.num 2]))) =
      .error PyErr.attributeError :=
  ⟨rfl, rfl, rfl, rfl⟩

theorem subCategoryOfString_inv (s : String) (sc : SubCategory)
    (h : subCategoryOfString s = some sc) : s = subCategoryStr sc := by
  unfold subCategoryOfString at h
  split_ifs at h with h1 h2 h3 h4 h5 h6 h7 h8 <;>
    (try (rw [Option.some.injEq] at h; subst h)) <;> simp_all [subCategoryStr]

/-- C2 counterexample: the classifier response with category brothel and
sub-category rescue parses to a Classification that carries the
cross-category sub-category rescue, which is not in the valid subset of
brothel. -/
theorem C2_parse_counterexample :
    Classifier.parse_response (some (Jval.obj
      [("relevant", Jval.jbool true), ("category", Jval.str "brothel"),
       ("sub_category", Jval.str "rescue"), ("confidence", Jval.str "high")])) =
      .ok ⟨true, .brothel, some .rescue, "high"⟩ ∧
    validSub .brothel .rescue = false :=
  ⟨rfl, rfl⟩

/-- C2 (amended): parsing an object response never raises; a carried
sub-category always comes verbatim from a response tag that is a member of
the flat SubCategory enumeration (unknown tags are ignored), but no
cross-category validation happens: any member is accepted under any
category, e.g. brothel with rescue. -/
theorem C2_parse_subcategory :
    (∀ fields, ∃ r, Classifier.parse_response (some (Jval.obj fields)) = .ok r) ∧
    (∀ fields r sc, Classifier.parse_response (some (Jval.obj fields)) = .ok r →
      r.sub_category = some sc →
      jget fields "sub_category" = some (Jval.str (subCategoryStr sc))) ∧
    Classifier.parse_response none = .ok ⟨false, .not_relevant, none, "low"⟩ ∧
    Classifier.parse_response (some (Jval.obj
      [("relevant", Jval.jbool true), ("category", Jval.str "brothel"),
       ("sub_category", Jval.str "rescue"), ("confidence", Jval.str "high")])) =
      .ok ⟨true, .brothel, some .rescue, "high"⟩ := by
  refine ⟨?_, ?_, rfl, rfl⟩
  · intro fields
    exact ⟨_, rfl⟩
  · intro fields r sc hok hsub
    simp only [Classifier.parse_response, Except.ok.injEq] at hok
    subst hok
    simp only at hsub
    cases hget : jget fields "sub_category" with
    | none => rw [hget] at hsub; simp at hsub
    | some v =>
      rw [hget] at hsub
      dsimp only at hsub
      by_cases htru : jvalTruthy v
      · rw [if_pos htru] at hsub
        cases v with
        | str s =>
          have h9 := subCategoryOfString_inv s sc hsub
          rw [h9]
        | obj f => simp at hsub
        | arr l => simp at hsub
        | num q => simp at hsub
        | jbool b => simp at hsub
        | null => simp at hsub
      · rw [if_neg htru] at hsub
        simp at hsub

/-- C2 witness for the amended theorem: the brothel plus rescue response
instantiates the sub-category clause. -/
theorem C2_parse_subcategory_witness :
    jget [("relevant", Jval.jbool true), ("category", Jval.str "brothel"),
       ("sub_category", Jval.str "rescue"), ("confidence", Jval.str "high")]
      "sub_category" = some (Jval.str (subCategoryStr SubCategory.rescue)) :=
  C2_parse_subcategory.2.1
    [("relevant", Jval.jbool true), ("category", Jval.str "brothel"),
     ("sub_category", Jval.str "rescue"), ("confidence", Jval.str "high")]
    ⟨true, .brothel, some .rescue, "high"⟩ SubCategory.rescue rfl rfl

theorem matchingTotalF_le (pop : Char → Bool) :
    ∀ (fuel : Nat) (a b : List Char),
      matchingTotalF pop fuel a b ≤ min a.length b.length := by
  intro fuel
  induction fuel with
  | zero => intro a b; simp [matchingTotalF]
  | succ fuel ih =>
    intro a b
    simp only [matchingTotalF]
    split
    · simp
    · have hr := flm_inrange pop a b
      have h1 := ih (a.take (findLongestMatch pop a b).1) (b.take (findLongestMatch pop a b).2.1)
      have h2 := ih (a.drop ((findLongestMatch pop a b).1 + (findLongestMatch pop a b).2.2))
        (b.drop ((findLongestMatch pop a b).2.1 + (findLongestMatch pop a b).2.2))
      simp only [List.length_take, List.length_drop] at h1 h2
      rw [le_min_iff] at h1 h2 ⊢
      omega

theorem matchingTotal_le (pop : Char → Bool) (a b : List Char) :
    matchingTotal pop a b ≤ min a.length b.length :=
  matchingTotalF_le pop (a.length + b.length + 1) a b

theorem ratioQ_mem_unit (a b : List Char) : 0 ≤ ratioQ a b ∧ ratioQ a b ≤ 1 := by
  simp only [ratioQ]
  split
  · norm_num
  · rename_i hne
    have hM := matchingTotal_le (isPopular b) a b
    rw [le_min_iff] at hM
    have hT : (0 : ℚ) < (a.length : ℚ) + (b.length : ℚ) := by
      have h0 : 0 < a.length + b.length := Nat.pos_of_ne_zero hne
      exact_mod_cast h0
    constructor
    · positivity
    · rw [div_le_one hT]
      have h2 : ((matchingTotal (isPopular b) a b : ℚ)) * 2 ≤
          (a.length : ℚ) + (b.length : ℚ) := by
        exact_mod_cast (by omega : matchingTotal (isPopular b) a b * 2 ≤
          a.length + b.length)
      linarith

/-- Article titled aaaaaaa!!! (boundary similarity scenario). -/
def artSimA : ClassifiedArticle :=
  ⟨⟨"https://x.example/a", "aaaaaaa!!!", "sa", 0, "sa"⟩, ⟨true, .enforcement, none, "high"⟩⟩

/-- Article titled aaaaaaa??? - ratio exactly 7/10 against artSimA. -/
def artSimB : ClassifiedArticle :=
  ⟨⟨"https://x.example/b", "aaaaaaa???", "sb", 0, "sb"⟩, ⟨true, .enforcement, none, "high"⟩⟩

/-- Article titled abcdefghij (below-threshold scenario). -/
def artDifA : ClassifiedArticle :=
  ⟨⟨"https://x.example/c", "abcdefghij", "sc", 0, "sc"⟩, ⟨true, .enforcement, none, "high"⟩⟩

/-- Article titled abcdexxxxx - ratio 1/2 against artDifA. -/
def artDifB : ClassifiedArticle :=
  ⟨⟨"https://x.example/d", "abcdexxxxx", "sd", 0, "sd"⟩, ⟨true, .enforcement, none, "high"⟩⟩

set_option maxRecDepth 8192

/-- C4: two articles are similar enough exactly when the ratio of their
lowercased titles is at least the threshold; the ratio lies in [0, 1] and is
1 for identical strings (below the 200 character autojunk bound); a pair at
ratio exactly 7/10 is similar under the default threshold 7/10 and is
grouped together, and a pair at ratio 1/2 is not similar and stays in
separate groups. -/
theorem C4_similarity_threshold :
    (∀ (threshold : ℚ) (a1 a2 : ClassifiedArticle),
      Deduplicator.is_similar threshold a1 a2 = true ↔
        threshold ≤ ratioQ (pyLower a1.article.title).data (pyLower a2.article.title).data) ∧
    (∀ (a b : List Char), 0 ≤ ratioQ a b ∧ ratioQ a b ≤ 1) ∧
    (∀ (l : List Char), l.length < 200 → ratioQ l l = 1) ∧
    (ratioQ (pyLower artSimB.article.title).data (pyLower artSimA.article.title).data = 7 / 10 ∧
      Deduplicator.is_similar (7 / 10) artSimB artSimA = true ∧
      Deduplicator.group (7 / 10) [artSimA, artSimB] = [⟨[artSimA, artSimB]⟩]) ∧
    (ratioQ (pyLower artDifB.article.title).data (pyLower artDifA.article.title).data = 1 / 2 ∧
      Deduplicator.is_similar (7 / 10) artDifB artDifA = false ∧
      Deduplicator.group (7 / 10) [artDifA, artDifB] = [⟨[artDifA]⟩, ⟨[artDifB]⟩]) := by
  have hM1 : matchingTotal (isPopular (pyLower artSimA.article.title).data)
      (pyLower artSimB.article.title).data (pyLower artSimA.article.title).data = 7 := by
    decide
  have hr1 : ratioQ (pyLower artSimB.article.title).data
      (pyLower artSimA.article.title).data = 7 / 10 := by
    rw [ratioQ_eval _ _ 7 hM1 (by decide)]
    rw [show (pyLower artSimB.article.title).data.length = 10 from by decide]
    rw [show (pyLower artSimA.article.title).data.length = 10 from by decide]
    norm_num
  have hM2 : matchingTotal (isPopular (pyLower artDifA.article.title).data)
      (pyLower artDifB.article.title).data (pyLower artDifA.article.title).data = 5 := by
    decide
  have hr2 : ratioQ (pyLower artDifB.article.title).data
      (pyLower artDifA.article.title).data = 1 / 2 := by
    rw [ratioQ_eval _ _ 5 hM2 (by decide)]
    rw [show (pyLower artDifB.article.title).data.length = 10 from by decide]
    rw [show (pyLower artDifA.article.title).data.length = 10 from by decide]
    norm_num
  have hsim1 : Deduplicator.is_similar (7 / 10) artSimB artSimA = true := by
    simp only [Deduplicator.is_similar, decide_eq_true_eq, hr1]
    exact le_refl _
  have hsim2 : Deduplicator.is_similar (7 / 10) artDifB artDifA = false := by
    simp only [Deduplicator.is_similar, hr2]
    rw [decide_eq_false_iff_not]
    norm_num
  refine ⟨?_, ratioQ_mem_unit, ratioQ_self, ⟨hr1, hsim1, ?_⟩, ⟨hr2, hsim2, ?_⟩⟩
  · intro threshold a1 a2
    simp [Deduplicator.is_similar]
  · have hprim : (ArticleGroup.mk [artSimA]).primary = artSimA := rfl
    simp [Deduplicator.group, Deduplicator.addToGroups, hprim, hsim1, ArticleGroup.add]
  · have hprim : (ArticleGroup.mk [artDifA]).primary = artDifA := rfl
    simp [Deduplicator.group, Deduplicator.addToGroups, hprim, hsim2]

/-- C4 witness for the identical-strings clause: the boundary title is
shorter than 200 characters and its self-ratio is 1. -/
theorem C4_similarity_threshold_witness :
    ("aaaaaaa!!!".data.length < 200) ∧ ratioQ "aaaaaaa!!!".data "aaaaaaa!!!".data = 1 :=
  ⟨by decide, C4_similarity_threshold.2.2.1 "aaaaaaa!!!".data (by decide)⟩

theorem mem_itemUrls (threshold : ℚ) (arts : List ClassifiedArticle)
    (c : ClassifiedArticle) (hc : c ∈ arts) :
    c.article.url ∈ itemUrls (Deduplicator.deduplicate threshold arts) := by
  have hperm := group_join_perm threshold arts
  have hc2 : c ∈ groupArticles (Deduplicator.group threshold arts) := hperm.mem_iff.mpr hc
  simp only [groupArticles, List.mem_flatMap] at hc2
  obtain ⟨g, hg, hcg⟩ := hc2
  simp only [itemUrls, Deduplicator.deduplicate, List.mem_flatMap, List.mem_map]
  refine ⟨Deduplicator.group_to_unified g, ⟨g, hg, rfl⟩, ?_⟩
  simp only [Deduplicator.group_to_unified, List.mem_map]
  exact ⟨⟨c.article.source_name, c.article.url⟩, ⟨c, hcg, rfl⟩, rfl⟩

/-- C9: every run that aborts at the precondition check or short-circuits
with no configured sources, no fetched articles, no unseen articles or no
relevant articles returns an empty output and leaves the seen ledger
untouched: the in-memory store is returned unchanged and save is never
called, so nothing is marked seen before the commit step. -/
theorem C9_no_partial_commit (env : PipelineEnv) (st0 : SeenStore)
    (h : env.hasApiKey = false ∨ env.fetchResults = [] ∨ fetchedArticles env = [] ∨
      filter_seen (fetchedArticles env) st0 = [] ∨
      classify_articles env (filter_seen (fetchedArticles env) st0) = []) :
    run_pipeline_async env st0 = ⟨[], st0, false⟩ := by
  simp only [run_pipeline_async]
  split
  · rfl
  · split
    · rfl
    · split
      · rfl
      · split
        · rfl
        · split
          · rfl
          · rename_i h1 h2 h3 h4 h5
            exfalso
            rcases h with h | h | h | h | h <;> simp_all

/-- C9 witness: a run with the api key missing returns the empty result and
the untouched store. -/
theorem C9_no_partial_commit_witness :
    ((⟨false, [some [⟨"https://u.example/1", "t", "s", 0, "src"⟩]],
        fun _ => ⟨true, .enforcement, none, "high"⟩, 7 / 10, 30, "ts"⟩ :
      PipelineEnv).hasApiKey = false ∨
      (⟨false, [some [⟨"https://u.example/1", "t", "s", 0, "src"⟩]],
        fun _ => ⟨true, .enforcement, none, "high"⟩, 7 / 10, 30, "ts"⟩ :
      PipelineEnv).fetchResults = [] ∨
      fetchedArticles ⟨false, [some [⟨"https://u.example/1", "t", "s", 0, "src"⟩]],
        fun _ => ⟨true, .enforcement, none, "high"⟩, 7 / 10, 30, "ts"⟩ = [] ∨
      filter_seen (fetchedArticles ⟨false, [some [⟨"https://u.example/1", "t", "s", 0, "src"⟩]],
        fun _ => ⟨true, .enforcement, none, "high"⟩, 7 / 10, 30, "ts"⟩) ⟨[]⟩ = [] ∨
      classify_articles ⟨false, [some [⟨"https://u.example/1", "t", "s", 0, "src"⟩]],
          fun _ => ⟨true, .enforcement, none, "high"⟩, 7 / 10, 30, "ts"⟩
        (filter_seen (fetchedArticles ⟨false,
            [some [⟨"https://u.example/1", "t", "s", 0, "src"⟩]],
          fun _ => ⟨true, .enforcement, none, "high"⟩, 7 / 10, 30, "ts"⟩) ⟨[]⟩) = []) ∧
    run_pipeline_async
      ⟨false, [some [⟨"https://u.example/1", "t", "s", 0, "src"⟩]],
        fun _ => ⟨true, .enforcement, none, "high"⟩, 7 / 10, 30, "ts"⟩
      ⟨[]⟩ = ⟨[], ⟨[]⟩, false⟩ :=
  ⟨Or.inl rfl,
    C9_no_partial_commit
      ⟨false, [some [⟨"https://u.example/1", "t", "s", 0, "src"⟩]],
        fun _ => ⟨true, .enforcement, none, "high"⟩, 7 / 10, 30, "ts"⟩
      ⟨[]⟩ (Or.inl rfl)⟩

theorem mem_filter_seen (arts : List RawArticle) (st : SeenStore) (a : RawArticle) :
    a ∈ filter_seen arts st ↔ a ∈ arts ∧ st.is_seen a.url = false := by
  simp [filter_seen]

theorem classify_articles_eq_nil (env : PipelineEnv) (L : List RawArticle)
    (h : ∀ a ∈ L, (env.classify a).relevant = false) : classify_articles env L = [] := by
  simp only [classify_articles]
  rw [List.filter_eq_nil_iff]
  intro c hc
  obtain ⟨a, ha, rfl⟩ := List.mem_map.mp hc
  simp [h a ha]

/-- C1: running the pipeline a second time with identical fetch results and
identical per-item classifications, without resetting the seen ledger,
emits no UnifiedItems: every locator contributing to a first-run item was
marked seen at commit, so the second run either finds nothing unseen or
finds only articles whose classification is not relevant, and short-circuits
with an empty output. -/
theorem C1_second_run_empty (env : PipelineEnv) (st0 : SeenStore) :
    (run_pipeline_async env (run_pipeline_async env st0).store).items = [] := by
  by_cases c1 : (!env.hasApiKey) = true
  · simp [run_pipeline_async, c1]
  by_cases c2 : env.fetchResults.isEmpty = true
  · simp [run_pipeline_async, c1, c2]
  by_cases c3 : (fetchedArticles env).isEmpty = true
  · simp [run_pipeline_async, c1, c2, c3]
  by_cases c4 : (filter_seen (fetchedArticles env) st0).isEmpty = true
  · have hrun1 : run_pipeline_async env st0 = ⟨[], st0, false⟩ := by
      simp only [run_pipeline_async]
      rw [if_neg c1, if_neg c2, if_neg c3, if_pos c4]
    rw [hrun1]
    simp only [run_pipeline_async]
    rw [if_neg c1, if_neg c2, if_neg c3, if_pos c4]
  by_cases c5 : (classify_articles env (filter_seen (fetchedArticles env) st0)).isEmpty = true
  · have hrun1 : run_pipeline_async env st0 = ⟨[], st0, false⟩ := by
      simp only [run_pipeline_async]
      rw [if_neg c1, if_neg c2, if_neg c3, if_neg c4, if_pos c5]
    rw [hrun1]
    simp only [run_pipeline_async]
    rw [if_neg c1, if_neg c2, if_neg c3, if_neg c4, if_pos c5]
  · have hrun1 : (run_pipeline_async env st0).store =
        st0.mark_seen env.nowTs (itemUrls (Deduplicator.deduplicate env.threshold
          (classify_articles env (filter_seen (fetchedArticles env) st0)))) := by
      simp only [run_pipeline_async]
      rw [if_neg c1, if_neg c2, if_neg c3, if_neg c4, if_neg c5]
    rw [hrun1]
    simp only [run_pipeline_async]
    rw [if_neg c1, if_neg c2, if_neg c3]
    by_cases c6 : (filter_seen (fetchedArticles env)
        (st0.mark_seen env.nowTs (itemUrls (Deduplicator.deduplicate env.threshold
          (classify_articles env (filter_seen (fetchedArticles env) st0)))))).isEmpty = true
    · rw [if_pos c6]
    · rw [if_neg c6]
      have hrel2 : classify_articles env (filter_seen (fetchedArticles env)
          (st0.mark_seen env.nowTs (itemUrls (Deduplicator.deduplicate env.threshold
            (classify_articles env (filter_seen (fetchedArticles env) st0)))))) = [] := by
        apply classify_articles_eq_nil
        intro a ha
        by_contra hrel0
        rw [Bool.not_eq_false] at hrel0
        rw [mem_filter_seen] at ha
        obtain ⟨hafetched, hunseen⟩ := ha
        have hiff := is_seen_mark_seen st0 env.nowTs
          (itemUrls (Deduplicator.deduplicate env.threshold
            (classify_articles env (filter_seen (fetchedArticles env) st0)))) a.url
        have hnot : ¬(st0.is_seen a.url = true ∨ a.url ∈
            itemUrls (Deduplicator.deduplicate env.threshold
              (classify_articles env (filter_seen (fetchedArticles env) st0)))) := by
          rw [← hiff]
          simp [hunseen]
        push_neg at hnot
        have ha1 : a ∈ filter_seen (fetchedArticles env) st0 := by
          rw [mem_filter_seen]
          exact ⟨hafetched, by simpa using hnot.1⟩
        have hc1 : (⟨a, env.classify a⟩ : ClassifiedArticle) ∈
            classify_articles env (filter_seen (fetchedArticles env) st0) := by
          simp only [classify_articles, List.mem_filter, List.mem_map]
          exact ⟨⟨a, ha1, rfl⟩, hrel0⟩
        exact hnot.2 (mem_itemUrls env.threshold _ _ hc1)
      rw [if_pos (by rw [hrel2]; rfl)]
